/-
Verification of the ACCES / CoExSiST repository specification against the
code of `coexist/base.py` and `coexist/utilities.py`.

The Python code is shallowly embedded:

* Python strings are modelled as `List Char` (abbreviated `Chars`);
* Python floats that the relevant code paths produce are exact decimals, so
  they are modelled as `ℚ`, with IEEE NaN modelled as `Option.none`
  (`np.array([...None...], dtype=float)` turns `None` into NaN; NaN
  propagates through arithmetic and makes every comparison `False`,
  exactly like the `Option`-lifted operations below);
* raised Python exceptions are modelled with `Except PyErr`;
* the filesystem seen by `coexist.utilities` is modelled as finite
  association lists from path to directory listing / parsed CSV grid /
  unpickled object.
-/
import Mathlib

set_option maxHeartbeats 1000000

/-- Python strings are modelled as lists of characters. -/
abbrev Chars := List Char

/-- Exceptions raised by the modelled Python code. -/
inductive PyErr where
  /-- `ValueError` -/
  | pyValueError
  /-- `TypeError` -/
  | typeError
  /-- `AttributeError` -/
  | attributeError
  /-- `FileNotFoundError` -/
  | fileNotFound
  /-- `OSError` (also covers `NotADirectoryError` from `os.listdir`) -/
  | osError
  /-- `UnboundLocalError` (reading a loop variable that was never assigned) -/
  | unboundLocal
  /-- `ZeroDivisionError` -/
  | zeroDivision
  /-- `IndexError` -/
  | indexError
deriving Repr, DecidableEq

/-- The character `$`. -/
def dollarChar : Char := '$'

/-- The character `{` (written via its code point). -/
def lbraceChar : Char := Char.ofNat 123

/-- The character `}` (written via its code point). -/
def rbraceChar : Char := Char.ofNat 125

/-- If `p` is a prefix of `l`, return the remainder of `l`, otherwise `none`.
Models `str.startswith` (via `isSome`) and anchored literal regex matching. -/
def dropPrefixL : Chars → Chars → Option Chars
  | [], l => some l
  | _ :: _, [] => none
  | p :: ps, c :: cs => if c = p then dropPrefixL ps cs else none

/-- Models Python `str.startswith(p)` for `l`. -/
def startsWithB (l p : Chars) : Bool := (dropPrefixL p l).isSome

/-- Models `os.path.join(a, f)` for a relative name `f`. -/
def joinPath (a f : Chars) : Chars := a ++ '/' :: f

/-- Models `\w` of Python's `re` module on the ASCII range used by the repo. -/
def isWordChar (c : Char) : Bool := c.isAlphanum || c = '_'

/-- Anchored match of the regex `\$\{\w+\}` (from `base.py`) at the head of
`l`; on success returns the variable name between the braces and the
remainder of the string after the closing brace. The greedy `\w+` is
equivalent to taking the maximal word-character run here, because a shorter
run would leave a word character where `\}` must match. -/
def matchPlaceholderAt : Chars → Option (Chars × Chars)
  | c₁ :: c₂ :: rest =>
    if c₁ = dollarChar ∧ c₂ = lbraceChar then
      match rest.takeWhile isWordChar, rest.dropWhile isWordChar with
      | [], _ => none
      | _ :: _, [] => none
      | w, c₃ :: r => if c₃ = rbraceChar then some (w, r) else none
    else none
  | _ => none

/-- Models `re.search("\$\{\w+\}", cmd) is not None` from
`Parameters.__init__` in `base.py`. -/
def hasPlaceholder : Chars → Bool
  | [] => false
  | c :: rest => (matchPlaceholderAt (c :: rest)).isSome || hasPlaceholder rest

/-- NumPy elementwise `>=` on floats: any comparison involving NaN is
`False`. -/
def npGe (a b : Option ℚ) : Bool :=
  match a, b with
  | some x, some y => decide (x ≥ y)
  | _, _ => false

/-- Float subtraction with NaN propagation. -/
def npSub (a b : Option ℚ) : Option ℚ :=
  match a, b with
  | some x, some y => some (x - y)
  | _, _ => none

/-- Float multiplication by a constant with NaN propagation. -/
def npMul (c : ℚ) (a : Option ℚ) : Option ℚ :=
  match a with
  | some x => some (c * x)
  | none => none

/-- One row of the `Parameters` DataFrame of `base.py`: columns
`command`, `value`, `min`, `max`, `sigma`, indexed by the variable name. -/
structure ParamRow where
  command : Chars
  value : Option ℚ
  min : Option ℚ
  max : Option ℚ
  sigma : Option ℚ
deriving Repr, DecidableEq

/-- The `Parameters` DataFrame: the index (variable names, in order) and the
rows, in the same order. -/
structure ParametersTable where
  index : List Chars
  rows : List ParamRow
deriving Repr, DecidableEq

/-- Zip the five column iterables (named `variables`, `commands`, ... in the source) of `Parameters.__init__` into rows. -/
def zipRows : List Chars → List (Option ℚ) → List (Option ℚ) → List (Option ℚ) →
    List (Option ℚ) → List ParamRow
  | c :: cs, v :: vs, m :: ms, M :: Ms, s :: ss =>
    ⟨c, v, m, M, s⟩ :: zipRows cs vs ms Ms ss
  | _, _, _, _, _ => []

/-- Build the DataFrame of `Parameters.__init__` from the validated inputs. -/
def mkTable (varNames : List Chars) (commands : List Chars)
    (initial_values minimums maximums sigma : List (Option ℚ)) : ParametersTable :=
  ⟨varNames, zipRows commands initial_values minimums maximums sigma⟩

/-- `Parameters.__init__` from `base.py`. The checks appear in source
order: length equality of the five iterables; `(minimums >= maximums).any()`
(after the `dtype = float` conversion turning `None` into NaN, under which
comparisons with NaN are `False`); the `sigma0` length check (only when
`sigma0` is supplied, otherwise `sigma0 = 0.2 * (maximums - minimums)`);
and the `re.search("\$\{\w+\}", cmd)` check on every command. -/
def Parameters.init (varNames : List Chars) (commands : List Chars)
    (initial_values minimums maximums : List (Option ℚ))
    (sigma0 : Option (List (Option ℚ))) : Except PyErr ParametersTable :=
  if ¬(varNames.length = commands.length ∧ commands.length = initial_values.length ∧
      initial_values.length = minimums.length ∧ minimums.length = maximums.length) then
    .error .pyValueError
  else if (minimums.zip maximums).any (fun p => npGe p.1 p.2) then
    .error .pyValueError
  else
    match sigma0 with
    | none =>
      if commands.any (fun c => !(hasPlaceholder c)) then .error .pyValueError
      else .ok (mkTable varNames commands initial_values minimums maximums
        (List.zipWith (fun M m => npMul (0.2 : ℚ) (npSub M m)) maximums minimums))
    | some s =>
      if s.length ≠ varNames.length then .error .pyValueError
      else if commands.any (fun c => !(hasPlaceholder c)) then .error .pyValueError
      else .ok (mkTable varNames commands initial_values minimums maximums s)

/-- The decimal digit character for `d < 10`. -/
def digitChar (d : ℕ) : Char := Char.ofNat (48 + d)

/-- Numeric value of a decimal digit character. -/
def digitVal (c : Char) : ℕ := c.toNat - 48

/-- Fuel-driven accumulator loop rendering a natural number in decimal
(the fuel `n + 1` always suffices since `n / 10 < n` for `n ≥ 10`). -/
def natCharsAux : ℕ → ℕ → Chars → Chars
  | 0, _, acc => acc
  | fuel + 1, n, acc =>
    if n < 10 then digitChar n :: acc
    else natCharsAux fuel (n / 10) (digitChar (n % 10) :: acc)

/-- Decimal rendering of a natural number, as produced by Python
`str`/f-strings for a non-negative `int`. -/
def natChars (n : ℕ) : Chars := natCharsAux (n + 1) n []

/-- Numeric value of a digit string (leading zeros allowed, as in Python
`int`). -/
def digitsVal (l : Chars) : ℕ := l.foldl (fun a c => a * 10 + digitVal c) 0

/-- Models Python `int(s)` on the strings reachable here: defined exactly
for a non-empty run of decimal digits. -/
def parseDigits (l : Chars) : Option ℕ :=
  if l ≠ [] ∧ l.all Char.isDigit then some (digitsVal l) else none

/-- Rendering of a rational command payload. The source interpolates a
Python float with an f-string; the model keeps the exact value and renders
it as `numerator/denominator`, which preserves the information content of
the command without modelling binary float formatting. -/
def qChars (q : ℚ) : Chars :=
  (if q.num < 0 then ['-'] else []) ++ natChars q.num.natAbs ++ '/' :: natChars q.den

/-- State of a `Simulation` object from `base.py` that the modelled methods
touch: the `parameters` table, the stored `_step_size`, the `_verbose`
flag, the LIGGGHTS equal-style variables readable through
`extract_variable`, and the log of commands issued to the LIGGGHTS
handle. -/
structure SimState where
  params : ParametersTable
  step_size : ℚ
  verboseFlag : Bool
  liggghtsVars : Chars → ℚ
  commands : List Chars

/-- Python truthiness of an `Option Bool` (`None` is falsy). -/
def pyTruthy (o : Option Bool) : Bool := o.getD false

/-- The `Simulation.verbose` property getter (`base.py` lines 246-248).
Its body is the bare expression `self._verbose` with no `return`
statement, so the property evaluates the attribute, discards it, and
falls off the end: it returns Python `None` for every instance. -/
def Simulation.verbose (_s : SimState) : Option Bool := none

/-- The `Simulation.verbose` property setter: stores `bool(verbose)`. -/
def Simulation.setVerbose (s : SimState) (verbose : Bool) : SimState :=
  { s with verboseFlag := verbose }

/-- The literal text `run ` of the f-string in `Simulation.step`. -/
def runLit : Chars := ['r', 'u', 'n', ' ']

/-- The literal text ` post no` of the f-string in `Simulation.step`. -/
def postNoLit : Chars := [' ', 'p', 'o', 's', 't', ' ', 'n', 'o']

/-- `Simulation.step`: issues `run {num_steps}` when `self.verbose` is
truthy and `run {num_steps} post no` otherwise. Note that it reads the
`verbose` property, not `_verbose`. -/
def Simulation.step (s : SimState) (num_steps : ℕ) : SimState :=
  if pyTruthy (Simulation.verbose s) then
    { s with commands := s.commands ++ [runLit ++ natChars num_steps] }
  else
    { s with commands := s.commands ++ [runLit ++ natChars num_steps ++ postNoLit] }

/-- The literal text `timestep ` of the f-string in the `step_size` setter. -/
def timestepLit : Chars := ['t', 'i', 'm', 'e', 's', 't', 'e', 'p', ' ']

/-- The `Simulation.step_size` property setter (`base.py` lines 236-243):
`if 0 < new_step_size < 1`, store it and issue `timestep {new_step_size}`;
otherwise raise `ValueError` (before mutating anything). -/
def Simulation.setStepSize (s : SimState) (new_step_size : ℚ) :
    Except PyErr SimState :=
  if 0 < new_step_size ∧ new_step_size < 1 then
    .ok { s with
      step_size := new_step_size,
      commands := s.commands ++ [timestepLit ++ qChars new_step_size] }
  else .error .pyValueError

/-- Fuel-driven loop of `re.sub("\$\{\w+\}", replace_var, command)` from
`Simulation.__setitem__`: every placeholder `${var}` is replaced by the
rendering of `value` when `var` is the assigned key, and by the rendering
of the current LIGGGHTS variable `var` otherwise; all other characters are
copied. Fuel `l.length + 1` always suffices because a match consumes at
least one character. -/
def substCommandAux (key : Chars) (value : ℚ) (vars : Chars → ℚ) :
    ℕ → Chars → Chars
  | 0, l => l
  | _ + 1, [] => []
  | fuel + 1, c :: rest =>
    match matchPlaceholderAt (c :: rest) with
    | some (w, r) =>
      (if w = key then qChars value else qChars (vars w)) ++
        substCommandAux key value vars fuel r
    | none => c :: substCommandAux key value vars fuel rest

/-- `re.sub("\$\{\w+\}", replace_var, command)` from
`Simulation.__setitem__`. -/
def substCommand (key : Chars) (value : ℚ) (vars : Chars → ℚ) (l : Chars) : Chars :=
  substCommandAux key value vars (l.length + 1) l

/-- `self.parameters.loc[key, "command"]`: the command of the first row
labelled `key`. -/
def lookupRow (t : ParametersTable) (key : Chars) : Option ParamRow :=
  ((t.index.zip t.rows).find? (fun p => p.1 = key)).map (fun p => p.2)

/-- `self.parameters.at[key, "value"] = value`: update the `value` cell of
the row(s) labelled `key`, leaving every other cell untouched. -/
def setValue (t : ParametersTable) (key : Chars) (v : ℚ) : ParametersTable :=
  ⟨t.index, List.zipWith (fun n r => if n = key then { r with value := some v } else r)
    t.index t.rows⟩

/-- The literal text `variable ` of the f-string in `__setitem__`. -/
def variableLit : Chars := ['v', 'a', 'r', 'i', 'a', 'b', 'l', 'e', ' ']

/-- The literal text ` equal ` of the f-string in `__setitem__`. -/
def equalLit : Chars := [' ', 'e', 'q', 'u', 'a', 'l', ' ']

/-- `Simulation.__setitem__` from `base.py`: raise `AttributeError` when the
key is not in the parameters index; otherwise issue the substituted macro
command and `variable {key} equal {value}`, then set
`parameters.at[key, "value"] = value`. -/
def Simulation.setItem (s : SimState) (key : Chars) (value : ℚ) :
    Except PyErr SimState :=
  if key ∈ s.params.index then
    match lookupRow s.params key with
    | some row =>
      .ok { s with
        commands := s.commands ++
          [substCommand key value s.liggghtsVars row.command,
           variableLit ++ key ++ equalLit ++ qChars value],
        params := setValue s.params key value }
    | none => .error .attributeError
  else .error .attributeError

/-- The literal `opt_history_` of the regexes in `AccessData.read`. -/
def optHistL : Chars := ['o', 'p', 't', '_', 'h', 'i', 's', 't', 'o', 'r', 'y', '_']

/-- The literal `.csv`. -/
def dotCsvL : Chars := ['.', 'c', 's', 'v']

/-- The literal `_scaled.csv` appended to build the scaled-history path. -/
def scaledSufL : Chars := ['_', 's', 'c', 'a', 'l', 'e', 'd', '.', 'c', 's', 'v']

/-- The file name `access_info.pickle`. -/
def accessPickleL : Chars :=
  ['a', 'c', 'c', 'e', 's', 's', '_', 'i', 'n', 'f', 'o', '.', 'p', 'i', 'c', 'k', 'l', 'e']

/-- The directory-name pattern `access_info_` used by `find_access_path`. -/
def accessInfoPref : Chars :=
  ['a', 'c', 'c', 'e', 's', 's', '_', 'i', 'n', 'f', 'o', '_']

/-- The column-name piece `_std`. -/
def stdSufL : Chars := ['_', 's', 't', 'd']

/-- The column name `overall_std`. -/
def overallStdL : Chars := ['o', 'v', 'e', 'r', 'a', 'l', 'l', '_', 's', 't', 'd']

/-- The column name `error`. -/
def errorColL : Chars := ['e', 'r', 'r', 'o', 'r']

/-- Match of `[0-9]+\.csv` continuing an `opt_history_` match: after at
least one digit, the maximal digit run must be followed by the literal
`.csv` (greediness is equivalent to the maximal run because a shorter run
ends at a digit where `\.` cannot match). -/
def afterDigits : Chars → Bool
  | [] => false
  | c :: rest =>
    if c.isDigit then afterDigits rest else (dropPrefixL dotCsvL (c :: rest)).isSome

/-- `[0-9]+\.csv` anchored at the head of the string. -/
def digitsThenCsv : Chars → Bool
  | [] => false
  | c :: rest => c.isDigit && afterDigits rest

/-- The regex `opt_history_[0-9]+\.csv` anchored at the head of the
string. -/
def startsHist (l : Chars) : Bool :=
  match dropPrefixL optHistL l with
  | some r => digitsThenCsv r
  | none => false

/-- `re.compile(r"opt_history_[0-9]+\.csv").search(f) is not None`: the
anchored pattern matches at some position of `f`. -/
def historyMatches : Chars → Bool
  | [] => false
  | c :: rest => startsHist (c :: rest) || historyMatches rest

/-- Prepend a character to the first piece of a split result. -/
def consHead (c : Char) : List Chars → List Chars
  | t :: ts => (c :: t) :: ts
  | [] => [[c]]

/-- Fuel-driven scan of `re.split(r"opt_history_|\.csv", path)`: at every
position the scanner first tries the literal `opt_history_`, then the
literal `.csv` (the two can never overlap, since `opt_history_` contains
no `.` and starts with `o` while `.csv` starts with `.`); a match cuts the
string, anything else is copied into the current piece. -/
def splitDelimsAux : ℕ → Chars → List Chars
  | 0, l => [l]
  | fuel + 1, l =>
    match l with
    | [] => [[]]
    | c :: rest =>
      match dropPrefixL optHistL l with
      | some r => [] :: splitDelimsAux fuel r
      | none =>
        match dropPrefixL dotCsvL l with
        | some r => [] :: splitDelimsAux fuel r
        | none => consHead c (splitDelimsAux fuel rest)

/-- `re.split(r"opt_history_|\.csv", path)`. -/
def splitDelims (l : Chars) : List Chars := splitDelimsAux (l.length + 1) l

/-- `int(re.split(r"opt_history_|\.csv", history_path)[1])` from
`AccessData.read`: element 1 of the split (when it exists) parsed as an
integer (when it is one). -/
def parseNumSolutions (history_path : Chars) : Option ℕ :=
  match (splitDelims history_path).get? 1 with
  | some piece => parseDigits piece
  | none => none

/-- `history_path.split(".csv")[0]`: the characters before the first
occurrence of `.csv` (the whole string when there is none). -/
def headBeforeCsv : Chars → Chars
  | [] => []
  | c :: rest =>
    match dropPrefixL dotCsvL (c :: rest) with
    | some _ => []
    | none => c :: headBeforeCsv rest

/-- The object unpickled from `access_info.pickle`: the legacy
`coexist.Access` run metadata consumed by `AccessData.read`
(`access_info.parameters`, `access_info.target_sigma`,
`access_info.random_seed`). -/
structure AccessInfo where
  parameters : ParametersTable
  target_sigma : ℚ
  random_seed : ℕ
deriving Repr, DecidableEq

/-- A pandas DataFrame as far as `AccessData` is concerned: column names
plus the rectangular rows. -/
structure DataFrame where
  columns : List Chars
  rows : List (List ℚ)
deriving Repr, DecidableEq

/-- Result of `np.loadtxt`: a 2-D array, a squeezed 1-D array (file with a
single row, or with a single column), or a squeezed 0-d scalar (file with
a single cell). -/
inductive NpArray where
  | twod (rows : List (List ℚ))
  | oned (row : List ℚ)
  | zerod (x : ℚ)
deriving Repr, DecidableEq

/-- `np.loadtxt` on a whitespace-separated numeric text file, given as the
grid of its rows: ragged rows raise `ValueError`; otherwise the array is
squeezed as numpy does (no `ndmin` argument is passed in the source). -/
def loadtxt (grid : List (List ℚ)) : Except PyErr NpArray :=
  if grid.all (fun r => r.length = (grid.headD []).length) then
    match grid with
    | [] => .ok (.oned [])
    | [[x]] => .ok (.zerod x)
    | [r] => .ok (.oned r)
    | rows =>
      if (rows.headD []).length = 1 then .ok (.oned (rows.map (fun r => r.headD 0)))
      else .ok (.twod rows)
  else .error .pyValueError

/-- `pd.DataFrame(data = a, columns = cols)`: a 2-D array must have
row width equal to the number of column names; a 1-D array is treated as a
single column and. so is accepted only for exactly one column name; a 0-d
array is rejected. -/
def mkDF (a : NpArray) (cols : List Chars) : Except PyErr DataFrame :=
  match a with
  | .zerod _ => .error .pyValueError
  | .oned l =>
    if cols.length = 1 then .ok ⟨cols, l.map (fun x => [x])⟩
    else .error .pyValueError
  | .twod rows =>
    if rows.all (fun r => r.length = cols.length) then .ok ⟨cols, rows⟩
    else .error .pyValueError

/-- Python `len` of a loaded array: raises `TypeError` on a 0-d array. -/
def npLen (a : NpArray) : Except PyErr ℕ :=
  match a with
  | .twod rows => .ok rows.length
  | .oned l => .ok l.length
  | .zerod _ => .error .typeError

/-- `results_columns` from `AccessData.read`: the parameter names, then
`<name>_std` for each, then `overall_std` and `error`. -/
def resultsColumns (parameters : ParametersTable) : List Chars :=
  parameters.index ++ parameters.index.map (fun rc => rc ++ stdSufL) ++
    [overallStdL, errorColL]

/-- The filesystem visible to `coexist.utilities`, as finite maps from path
to content: directory listings (`os.listdir`), numeric text files
(`np.loadtxt`), and pickles (`pickle.load`). -/
structure FileSys where
  dirs : List (Chars × List Chars)
  csvs : List (Chars × List (List ℚ))
  pickles : List (Chars × AccessInfo)

/-- `find_access_path` from `utilities.py`: a path that itself starts with
`access_info_` is returned as is; otherwise the first entry of its listing
starting with `access_info_` is joined onto it; otherwise the path is
returned as is. Listing a non-directory raises. -/
def find_access_path (fs : FileSys) (path : Chars) : Except PyErr Chars :=
  if startsWithB path accessInfoPref then .ok path
  else
    match fs.dirs.lookup path with
    | none => .error .osError
    | some listing =>
      match listing.find? (fun f => startsWithB f accessInfoPref) with
      | some f => .ok (joinPath path f)
      | none => .ok path

/-- The frozen `attrs` class `AccessData` from `utilities.py`, with its
seven declared fields. -/
structure AccessData where
  parameters : ParametersTable
  num_solutions : ℕ
  target_sigma : ℚ
  random_seed : ℕ
  results : DataFrame
  results_scaled : DataFrame
  num_epochs : ℕ
deriving Repr, DecidableEq

/-- Tail of `AccessData.read` from the `np.loadtxt(history_path)` line on,
once the loop over `os.listdir` has settled on the last matching history
file `f` in the resolved directory `ap` and `access_info.pickle` has
already been unpickled into `access_info`: recompute the loop's values
from `f` (the population size parse cannot fail here, since the loop
already parsed every matched file), `np.loadtxt` both history files,
build the two DataFrames over the derived column names, and assemble the
`AccessData` with `num_epochs = len(history) // num_solutions`. -/
def readWithFile (fs : FileSys) (ap f : Chars) (access_info : AccessInfo) :
    Except PyErr AccessData :=
  let history_path := joinPath ap f
  let history_scaled_path := headBeforeCsv history_path ++ scaledSufL
  match parseNumSolutions history_path with
  | none => .error .pyValueError
  | some num_solutions =>
    match fs.csvs.lookup history_path with
    | none => .error .osError
    | some hGrid =>
      match fs.csvs.lookup history_scaled_path with
      | none => .error .osError
      | some sGrid =>
        match loadtxt hGrid with
        | .error e => .error e
        | .ok history =>
          match loadtxt sGrid with
          | .error e => .error e
          | .ok history_scaled =>
            match mkDF history (resultsColumns access_info.parameters) with
            | .error e => .error e
            | .ok results =>
              match mkDF history_scaled (resultsColumns access_info.parameters) with
              | .error e => .error e
              | .ok results_scaled =>
                match npLen history with
                | .error e => .error e
                | .ok n =>
                  if num_solutions = 0 then .error .zeroDivision
                  else
                    .ok ⟨access_info.parameters, num_solutions,
                      access_info.target_sigma, access_info.random_seed,
                      results, results_scaled, n / num_solutions⟩

/-- The static method `AccessData.read` from `utilities.py`, with the
source's statement order: resolve the path through `find_access_path`;
loop over `os.listdir`, keeping the paths and parsed population size of
the last file matching `opt_history_[0-9]+\.csv` (the loop itself raises
`ValueError` as soon as any matched file yields an unparsable population
size, and raises nothing when no file matches); then open and unpickle
`access_info.pickle` (`FileNotFoundError` when absent); only after that
does `np.loadtxt(history_path)` read the loop variable, raising
`UnboundLocalError` when no file had matched; the rest is
`readWithFile`. -/
def AccessData.read (fs : FileSys) (access_path : Chars) :
    Except PyErr AccessData :=
  match find_access_path fs access_path with
  | .error e => .error e
  | .ok ap =>
    match fs.dirs.lookup ap with
    | none => .error .osError
    | some listing =>
      if (listing.filter historyMatches).any
          (fun g => (parseNumSolutions (joinPath ap g)).isNone) then
        .error .pyValueError
      else
        match fs.pickles.lookup (joinPath ap accessPickleL) with
        | none => .error .fileNotFound
        | some access_info =>
          match (listing.filter historyMatches).getLast? with
          | none => .error .unboundLocal
          | some f => readWithFile fs ap f access_info

/-- Calling the class itself with a single path argument,
`AccessData(path)`, as done by `test_access_data` in
`tests/test_access.py`. The `@attr.s(auto_attribs = True, ...)` decorator
generates `__init__(self, parameters, num_solutions, target_sigma,
random_seed, results, results_scaled, num_epochs)` with no defaults, so a
one-argument call raises `TypeError` (six required positional arguments
missing) for every path and every filesystem state. -/
def accessDataCallByPath (_path : Chars) : Except PyErr AccessData :=
  .error .typeError

/-- Configuration and persisted history of one completed ACCES run, used to
state the round-trip property. -/
structure RunConfig where
  seed : ℕ
  params : ParametersTable
  target_sigma : ℚ
  num_solutions : ℕ
  num_epochs : ℕ
  history : List (List ℚ)
  history_scaled : List (List ℚ)

/-- Modelled from the spec: run directories are "named deterministically
from a seed" (§3 RunDirectory); the legacy naming convention the reader
consumes is `access_info_<seed>` (`utilities.py` docstring: running with
`random_seed = 12345` generates `access_info_012345/`). The model renders
the seed without zero padding, which the reader never relies on. -/
def runDirName (cfg : RunConfig) : Chars := accessInfoPref ++ natChars cfg.seed

/-- The history file name `opt_history_<num_solutions>.csv`. -/
def histFileName (n : ℕ) : Chars := optHistL ++ natChars n ++ dotCsvL

/-- The scaled history file name `opt_history_<num_solutions>_scaled.csv`. -/
def histScaledFileName (n : ℕ) : Chars := optHistL ++ natChars n ++ scaledSufL

/-- Modelled from the spec: the Persistence component (§4.5, §6 "Persisted
layout" — the `coexist.Access` writer is not part of the provided
sources). A completed run's directory holds exactly one metadata snapshot
`access_info.pickle` (parameter table, target sigma, random seed) and the
two history tables, raw and sigma-scaled, named to encode the population
size used to produce them; the raw and scaled tables gain one row per
candidate, `num_epochs × num_solutions` in total. -/
def writeRun (cfg : RunConfig) : FileSys :=
  { dirs := [(runDirName cfg,
      [accessPickleL, histScaledFileName cfg.num_solutions,
       histFileName cfg.num_solutions])],
    csvs := [(joinPath (runDirName cfg) (histFileName cfg.num_solutions), cfg.history),
             (joinPath (runDirName cfg) (histScaledFileName cfg.num_solutions),
              cfg.history_scaled)],
    pickles := [(joinPath (runDirName cfg) accessPickleL,
      ⟨cfg.params, cfg.target_sigma, cfg.seed⟩)] }

/-- Convert a Lean string literal to its character list. -/
def strChars (s : String) : Chars := s.toList

/-- A command template `${cor}` for the fixture parameter. -/
def testCmd : Chars := dollarChar :: lbraceChar :: 'c' :: 'o' :: 'r' :: [rbraceChar]

/-- Fixture parameter table with one parameter `cor`. -/
def testParams : ParametersTable :=
  ⟨[strChars "cor"], [⟨testCmd, some 1, some (-3), some 5, some (8 / 5)⟩]⟩

/-- Fixture unpickled run metadata. -/
def testInfo : AccessInfo := ⟨testParams, 1 / 10, 42⟩

/-- Path of the legacy-format fixture run directory (mirroring
`tests/test_access.py`). -/
def legacyDirPath : Chars := strChars "access_data/access_info_000042"

/-- Path of the current-format fixture run directory (mirroring
`tests/test_access.py`). -/
def modernDirPath : Chars := strChars "access_data/access_seed123"

/-- Path of the parent directory holding both fixture runs. -/
def parentPath : Chars := strChars "access_data"

/-- Raw history rows of the legacy fixture: population size 2, one epoch,
row width 2 · 1 + 2. -/
def testHistory : List (List ℚ) := [[1, 2, 3, 4], [5, 6, 7, 8]]

/-- Scaled history rows of the legacy fixture. -/
def testHistoryScaled : List (List ℚ) := [[0, 0, 0, 4], [1, 1, 1, 8]]

/-- Fixture filesystem mirroring the layout exercised by
`test_access_data`: a parent directory holding a current-format run
directory `access_seed123` and a legacy-format run directory
`access_info_000042`. The contents of the current-format directory are
modelled from the spec (§4.6, §6: a run layout with "a different
historical naming convention" on the legacy side, pattern-matched by file
names): the current format does not use the `opt_history_<N>.csv` naming
nor `access_info.pickle`, which is all `AccessData.read` can consume. -/
def testFS : FileSys :=
  { dirs := [
      (parentPath, [strChars "access_seed123", strChars "access_info_000042"]),
      (modernDirPath, [strChars "parameters.pickle", strChars "results"]),
      (legacyDirPath,
        [accessPickleL, strChars "opt_history_2_scaled.csv",
         strChars "opt_history_2.csv"])],
    csvs := [
      (strChars "access_data/access_info_000042/opt_history_2.csv", testHistory),
      (strChars "access_data/access_info_000042/opt_history_2_scaled.csv",
        testHistoryScaled)],
    pickles := [
      (strChars "access_data/access_info_000042/access_info.pickle", testInfo)] }

/-- The `AccessData` reconstructed from the legacy fixture directory. -/
def testAccessData : AccessData :=
  ⟨testParams, 2, 1 / 10, 42,
    ⟨resultsColumns testParams, testHistory⟩,
    ⟨resultsColumns testParams, testHistoryScaled⟩, 1⟩

/-- Prepend a character run to the first piece of a split result. -/
def prependToHead (a : Chars) : List Chars → List Chars
  | t :: ts => (a ++ t) :: ts
  | [] => [a]

/-- Concrete simulation fixture used to instantiate the `Simulation`
theorems. -/
def simFixture : SimState :=
  ⟨testParams, 1 / 1000, true, fun _ => 0, []⟩

/-- Concrete completed-run configuration used to instantiate the
round-trip theorem: seed 42, one parameter, population size 2, one
epoch. -/
def cfgFixture : RunConfig :=
  ⟨42, testParams, 1 / 10, 2, 1, testHistory, testHistoryScaled⟩

/-!  Theorems.  General-purpose helper lemmas come first, then one theorem
per claim (with a witness or counterexample where required). -/

/-- Dropping a prefix accounts for all of its characters. -/
theorem dropPrefixL_length : ∀ (p l r : Chars), dropPrefixL p l = some r →
    l.length = p.length + r.length
  | [], l, r => by intro h; simp [dropPrefixL] at h; simp [h]
  | _ :: _, [], r => by intro h; simp [dropPrefixL] at h
  | p :: ps, c :: cs, r => by
    intro h
    simp only [dropPrefixL] at h
    split at h
    · have := dropPrefixL_length ps cs r h
      simp [this]; omega
    · exact absurd h (by simp)

/-- A string is recovered after dropping its own prefix. -/
theorem dropPrefixL_append_self : ∀ (p l : Chars), dropPrefixL p (p ++ l) = some l
  | [], l => rfl
  | c :: cs, l => by simp [dropPrefixL, dropPrefixL_append_self cs l]

/-- C9: for every `Simulation` instance, reading the public `verbose`
property returns `None`, regardless of the value stored in `_verbose` by
the constructor or through the setter; consequently `Simulation.step`
always takes the non-verbose branch and issues the
`run <num_steps> post no` command. -/
theorem C9_verbose_property_none (s : SimState) (b : Bool) (n : ℕ) :
    Simulation.verbose s = none ∧
    Simulation.verbose (Simulation.setVerbose s b) = none ∧
    (Simulation.step s n).commands =
      s.commands ++ [runLit ++ natChars n ++ postNoLit] := by
  refine ⟨rfl, rfl, ?_⟩
  simp [Simulation.step, Simulation.verbose, pyTruthy]

/-- C10: assigning `new_step_size` to the `step_size` property raises
`ValueError` (mutating nothing — the raise happens before any assignment)
whenever `new_step_size` is not strictly between 0 and 1, and otherwise
stores the new step size and issues the `timestep {new_step_size}`
command. -/
theorem C10_step_size_setter (s : SimState) (new_step_size : ℚ) :
    (¬(0 < new_step_size ∧ new_step_size < 1) →
      Simulation.setStepSize s new_step_size = .error .pyValueError) ∧
    ((0 < new_step_size ∧ new_step_size < 1) →
      Simulation.setStepSize s new_step_size =
        .ok { s with
              step_size := new_step_size,
              commands := s.commands ++ [timestepLit ++ qChars new_step_size] }) := by
  constructor <;> intro h <;> simp [Simulation.setStepSize, h]

/-- Witness for C10 at a concrete in-range input. -/
theorem C10_witness :
    Simulation.setStepSize simFixture (1 / 2) =
      .ok { simFixture with
            step_size := 1 / 2,
            commands := simFixture.commands ++ [timestepLit ++ qChars (1 / 2)] } :=
  (C10_step_size_setter simFixture (1 / 2)).2 (by norm_num)

/-- Pointwise description of `List.zipWith`. -/
theorem zipWith_get? {α β γ : Type} (f : α → β → γ) :
    ∀ (a : List α) (b : List β) (i : ℕ),
      (List.zipWith f a b).get? i =
        match a.get? i, b.get? i with
        | some x, some y => some (f x y)
        | _, _ => none := by
  intro a
  induction a with
  | nil => intro b i; cases b <;> cases i <;> rfl
  | cons x xs ih =>
    intro b i
    cases b with
    | nil =>
      cases i with
      | zero => rfl
      | succ j => cases h : (x :: xs).get? (j + 1) <;> simp [h]
    | cons y ys => cases i with
      | zero => rfl
      | succ j => simpa using ih ys j

/-- A key present in a well-formed table has a row. -/
theorem lookupRow_exists (t : ParametersTable) (key : Chars)
    (hk : key ∈ t.index) (hlen : t.index.length = t.rows.length) :
    ∃ row, lookupRow t key = some row := by
  obtain ⟨i, hi⟩ := List.mem_iff_get.mp hk
  have hilt : i.1 < t.rows.length := hlen ▸ i.2
  have hzipdef : t.index.zip t.rows = List.zipWith Prod.mk t.index t.rows := rfl
  have hzip : (t.index.zip t.rows).get? i.1 = some (key, t.rows.get ⟨i.1, hilt⟩) := by
    rw [hzipdef, zipWith_get? Prod.mk, List.get?_eq_get i.2, List.get?_eq_get hilt, hi]
  have hmem : (key, t.rows.get ⟨i.1, hilt⟩) ∈ t.index.zip t.rows := List.get?_mem hzip
  have : ((t.index.zip t.rows).find? (fun p => p.1 = key)).isSome := by
    rw [List.find?_isSome]
    exact ⟨(key, t.rows.get ⟨i.1, hilt⟩), hmem, by simp⟩
  obtain ⟨p, hp⟩ := Option.isSome_iff_exists.mp this
  exact ⟨p.2, by simp [lookupRow, hp]⟩

/-- C8: for every `Simulation` whose parameter table is well-formed and
every parameter name `key` present in its index, the assignment
`simulation[key] = value` succeeds and changes only the `value` cell of
the row(s) labelled `key`: the `command`, `min`, `max` and `sigma` cells
of every row, and the whole rows whose label differs from `key`, are
unchanged. -/
theorem C8_setitem_frame (s : SimState) (key : Chars) (v : ℚ)
    (hk : key ∈ s.params.index)
    (hlen : s.params.index.length = s.params.rows.length) :
    ∃ s', Simulation.setItem s key v = .ok s' ∧
      s'.params.index = s.params.index ∧
      (∀ i, (s'.params.rows.get? i).map ParamRow.command
              = (s.params.rows.get? i).map ParamRow.command
          ∧ (s'.params.rows.get? i).map ParamRow.min
              = (s.params.rows.get? i).map ParamRow.min
          ∧ (s'.params.rows.get? i).map ParamRow.max
              = (s.params.rows.get? i).map ParamRow.max
          ∧ (s'.params.rows.get? i).map ParamRow.sigma
              = (s.params.rows.get? i).map ParamRow.sigma) ∧
      (∀ i, s.params.index.get? i ≠ some key →
          s'.params.rows.get? i = s.params.rows.get? i) := by
  obtain ⟨row, hrow⟩ := lookupRow_exists s.params key hk hlen
  refine ⟨{ s with
      commands := s.commands ++
        [substCommand key v s.liggghtsVars row.command,
         variableLit ++ key ++ equalLit ++ qChars v],
      params := setValue s.params key v }, ?_, rfl, ?_, ?_⟩
  · simp [Simulation.setItem, hk, hrow]
  · intro i
    show ((setValue s.params key v).rows.get? i).map _ = _ ∧ _ ∧ _ ∧ _
    simp only [setValue]
    rw [zipWith_get?]
    rcases hn : s.params.index.get? i with _ | n <;>
      rcases hr : s.params.rows.get? i with _ | r
    · simp
    · have : s.params.rows.get? i = none := by
        rw [List.get?_eq_none] at hn ⊢; omega
      rw [this] at hr; cases hr
    · simp
    · by_cases hkey : n = key <;> simp [hkey]
  · intro i hne
    show (setValue s.params key v).rows.get? i = _
    simp only [setValue]
    rw [zipWith_get?]
    rcases hn : s.params.index.get? i with _ | n <;>
      rcases hr : s.params.rows.get? i with _ | r
    · simp
    · have : s.params.rows.get? i = none := by
        rw [List.get?_eq_none] at hn ⊢; omega
      rw [this] at hr; cases hr
    · simp
    · rw [hn] at hne
      have : ¬(n = key) := by intro h; exact hne (by rw [h])
      simp [this]

/-- Witness for C8 at the concrete fixture: the fixture table has the key
`cor` and equal index and row counts. -/
theorem C8_witness :
    ∃ s', Simulation.setItem simFixture (strChars "cor") (3 / 4) = .ok s' ∧
      s'.params.index = simFixture.params.index ∧
      (∀ i, (s'.params.rows.get? i).map ParamRow.command
              = (simFixture.params.rows.get? i).map ParamRow.command
          ∧ (s'.params.rows.get? i).map ParamRow.min
              = (simFixture.params.rows.get? i).map ParamRow.min
          ∧ (s'.params.rows.get? i).map ParamRow.max
              = (simFixture.params.rows.get? i).map ParamRow.max
          ∧ (s'.params.rows.get? i).map ParamRow.sigma
              = (simFixture.params.rows.get? i).map ParamRow.sigma) ∧
      (∀ i, simFixture.params.index.get? i ≠ some (strChars "cor") →
          s'.params.rows.get? i = simFixture.params.rows.get? i) :=
  C8_setitem_frame simFixture (strChars "cor") (3 / 4) (by decide) (by decide)

/-- The sigma column of a freshly zipped table is the sigma input. -/
theorem zipRows_map_sigma (cs : List Chars) :
    ∀ (vs ms Ms ss : List (Option ℚ)),
      cs.length = vs.length → vs.length = ms.length → ms.length = Ms.length →
      Ms.length = ss.length →
      (zipRows cs vs ms Ms ss).map ParamRow.sigma = ss := by
  induction cs with
  | nil =>
    intro vs ms Ms ss h1 h2 h3 h4
    rcases ss with _ | ⟨x, ss⟩
    · rfl
    · simp at h1 h2 h3 h4; omega
  | cons c cs ih =>
    intro vs ms Ms ss h1 h2 h3 h4
    rcases vs with _ | ⟨v, vs⟩; · simp at h1
    rcases ms with _ | ⟨m, ms⟩; · simp at h2
    rcases Ms with _ | ⟨M, Ms⟩; · simp at h3
    rcases ss with _ | ⟨sg, ss⟩; · simp at h4
    simp only [zipRows, List.map_cons, List.cons.injEq, true_and]
    exact ih vs ms Ms ss (by simpa using h1) (by simpa using h2)
      (by simpa using h3) (by simpa using h4)

/-- Bounds of any row of a freshly zipped table come from the zipped
minimum/maximum inputs. -/
theorem zipRows_mem_minmax (cs : List Chars) :
    ∀ (vs ms Ms ss : List (Option ℚ)) (r : ParamRow),
      r ∈ zipRows cs vs ms Ms ss → (r.min, r.max) ∈ ms.zip Ms := by
  induction cs with
  | nil => intro vs ms Ms ss r h; simp [zipRows] at h
  | cons c cs ih =>
    intro vs ms Ms ss r h
    rcases vs with _ | ⟨v, vs⟩; · simp [zipRows] at h
    rcases ms with _ | ⟨m, ms⟩; · simp [zipRows] at h
    rcases Ms with _ | ⟨M, Ms⟩; · simp [zipRows] at h
    rcases ss with _ | ⟨sg, ss⟩; · simp [zipRows] at h
    simp only [zipRows, List.mem_cons] at h
    rcases h with h | h
    · subst h; simp
    · simpa using List.mem_cons_of_mem (m, M) (ih vs ms Ms ss r h)

/-- When the sigma column is computed elementwise from the maximum and
minimum columns, every row's sigma is that function of its own bounds. -/
theorem zipRows_sigma_zipWith (f : Option ℚ → Option ℚ → Option ℚ)
    (cs : List Chars) :
    ∀ (vs ms Ms : List (Option ℚ)) (r : ParamRow),
      r ∈ zipRows cs vs ms Ms (List.zipWith f Ms ms) → r.sigma = f r.max r.min := by
  induction cs with
  | nil => intro vs ms Ms r h; simp [zipRows] at h
  | cons c cs ih =>
    intro vs ms Ms r h
    rcases vs with _ | ⟨v, vs⟩; · simp [zipRows] at h
    rcases ms with _ | ⟨m, ms⟩; · simp [zipRows] at h
    rcases Ms with _ | ⟨M, Ms⟩; · simp [zipRows] at h
    simp only [List.zipWith_cons_cons, zipRows, List.mem_cons] at h
    rcases h with h | h
    · subst h; rfl
    · exact ih vs ms Ms r h

/-- C1: the `Parameters` constructor succeeds exactly when none of the
four validation conditions is violated: the five input iterables have
equal lengths, no minimum is `>=` its maximum (under NumPy float
comparison, where a NaN bound never compares), every command contains a
`${varname}` placeholder, and an explicitly supplied `sigma0` has the
same length as `variables`. On any violation it raises `ValueError` and
constructs nothing. -/
theorem C1_parameters_validation (varNames commands : List Chars)
    (initial_values minimums maximums : List (Option ℚ))
    (sigma0 : Option (List (Option ℚ))) :
    (∃ t, Parameters.init varNames commands initial_values minimums maximums
        sigma0 = .ok t) ↔
      ((varNames.length = commands.length ∧
        commands.length = initial_values.length ∧
        initial_values.length = minimums.length ∧
        minimums.length = maximums.length) ∧
       (∀ p ∈ minimums.zip maximums, npGe p.1 p.2 = false) ∧
       (∀ c ∈ commands, hasPlaceholder c = true) ∧
       (∀ s, sigma0 = some s → s.length = varNames.length)) := by
  rcases sigma0 with _ | sg <;> simp only [Parameters.init] <;>
    split_ifs <;> simp_all [List.any_eq_true, not_or]

/-- Witness for C1: a concrete violation-free input constructs a table. -/
theorem C1_witness :
    ∃ t, Parameters.init [strChars "a"] [testCmd] [some 1] [some 0] [some 1]
      none = .ok t :=
  (C1_parameters_validation [strChars "a"] [testCmd] [some 1] [some 0] [some 1]
    none).mpr ⟨by decide, by decide, by decide, fun _ h => Option.noConfusion h⟩

/-- C2: for every valid construction with `sigma0` omitted in which every
parameter has both bounds (here expressed by passing columns of the form
`some ·`), the sigma column equals `0.2 * (max - min)` per parameter. -/
theorem C2_sigma_default (varNames commands : List Chars)
    (initial_values : List (Option ℚ)) (mins maxs : List ℚ) (t : ParametersTable)
    (hok : Parameters.init varNames commands initial_values (mins.map some)
      (maxs.map some) none = .ok t) :
    t.rows.map ParamRow.sigma =
      List.zipWith (fun M m => some ((0.2 : ℚ) * (M - m))) maxs mins := by
  simp only [Parameters.init] at hok
  split_ifs at hok with h1 h2 h3
  injection hok with hok
  subst hok
  show (zipRows _ _ _ _ _).map ParamRow.sigma = _
  rw [zipRows_map_sigma]
  · rw [List.zipWith_map_left, List.zipWith_map_right]
    rfl
  all_goals simp_all

/-- Witness for C2 at a concrete input with bounds `0 < 1`. -/
theorem C2_witness :
    ([⟨testCmd, some 1, some 0, some 1, some ((0.2 : ℚ) * (1 - 0))⟩] :
        List ParamRow).map ParamRow.sigma =
      List.zipWith (fun M m => some ((0.2 : ℚ) * (M - m))) [(1 : ℚ)] [(0 : ℚ)] :=
  C2_sigma_default [strChars "a"] [testCmd] [some 1] [0] [1]
    ⟨[strChars "a"], [⟨testCmd, some 1, some 0, some 1, some ((0.2 : ℚ) * (1 - 0))⟩]⟩
    (by rfl)

/-- Counterexample to C7 as stated: with both bounds `None` and `sigma0`
omitted, construction nevertheless succeeds (NaN `>=` NaN is `False`, so
the bounds check passes), and the resulting sigma entry is NaN
(`none`) — not a well-defined finite number, and the parameter has
neither its bounds pair nor an explicit sigma. -/
theorem C7_counterexample :
    Parameters.init [strChars "a"] [testCmd] [some (1 / 2)] [none] [none] none =
      .ok ⟨[strChars "a"], [⟨testCmd, some (1 / 2), none, none, none⟩]⟩ := by
  rfl

/-- C7 (amended): every successfully constructed table satisfies
`min < max` for each row whose bounds are both present; when `sigma0` is
omitted, the sigma entry of every row with both bounds present is
well-defined (non-NaN); and when `sigma0` is supplied explicitly, the
sigma column is exactly `sigma0`. (A row with a missing bound and no
explicit `sigma0` is still accepted and carries a NaN sigma, per the
counterexample.) -/
theorem C7_amended_invariant (varNames commands : List Chars)
    (initial_values minimums maximums : List (Option ℚ))
    (sigma0 : Option (List (Option ℚ))) (t : ParametersTable)
    (hok : Parameters.init varNames commands initial_values minimums maximums
      sigma0 = .ok t) :
    (∀ r ∈ t.rows, ∀ a b, r.min = some a → r.max = some b → a < b) ∧
    (sigma0 = none →
      ∀ r ∈ t.rows, r.min ≠ none → r.max ≠ none → r.sigma ≠ none) ∧
    (∀ s, sigma0 = some s → t.rows.map ParamRow.sigma = s) := by
  rcases sigma0 with _ | sg <;> simp only [Parameters.init] at hok
  · split_ifs at hok with h1 h2 h3
    injection hok with hok
    subst hok
    refine ⟨?_, ?_, fun s h => Option.noConfusion h⟩
    · intro r hr a b hmin hmax
      have hp := zipRows_mem_minmax commands initial_values minimums maximums _ r hr
      rw [List.any_eq_true] at h2
      have : ¬ npGe (r.min) (r.max) = true := fun hx => h2 ⟨(r.min, r.max), hp, hx⟩
      rw [hmin, hmax] at this
      simp [npGe] at this
      exact this
    · intro _ r hr hmin hmax
      have := zipRows_sigma_zipWith
        (fun M m => npMul (0.2 : ℚ) (npSub M m)) commands initial_values
        minimums maximums r hr
      rw [this]
      rcases hm : r.min with _ | a; · exact absurd hm hmin
      rcases hM : r.max with _ | b; · exact absurd hM hmax
      simp [npMul, npSub]
  · split_ifs at hok with h1 h2 h3 h4
    injection hok with hok
    subst hok
    refine ⟨?_, by simp, ?_⟩
    · intro r hr a b hmin hmax
      have hp := zipRows_mem_minmax commands initial_values minimums maximums _ r hr
      rw [List.any_eq_true] at h2
      have : ¬ npGe (r.min) (r.max) = true := fun hx => h2 ⟨(r.min, r.max), hp, hx⟩
      rw [hmin, hmax] at this
      simp [npGe] at this
      exact this
    · intro s h
      injection h with h
      subst h
      show (zipRows _ _ _ _ _).map ParamRow.sigma = sg
      rw [zipRows_map_sigma]
      all_goals simp_all

/-- Witness for C7 (amended) at a concrete valid input. -/
theorem C7_witness :
    (∀ r ∈ ([⟨testCmd, some 1, some 0, some 1, some ((0.2 : ℚ) * (1 - 0))⟩] :
        List ParamRow), ∀ a b, r.min = some a → r.max = some b → a < b) ∧
    ((none : Option (List (Option ℚ))) = none →
      ∀ r ∈ ([⟨testCmd, some 1, some 0, some 1, some ((0.2 : ℚ) * (1 - 0))⟩] :
        List ParamRow), r.min ≠ none → r.max ≠ none → r.sigma ≠ none) ∧
    (∀ s, (none : Option (List (Option ℚ))) = some s →
      ([⟨testCmd, some 1, some 0, some 1, some ((0.2 : ℚ) * (1 - 0))⟩] :
        List ParamRow).map ParamRow.sigma = s) :=
  C7_amended_invariant [strChars "a"] [testCmd] [some 1] [some 0] [some 1] none
    ⟨[strChars "a"], [⟨testCmd, some 1, some 0, some 1, some ((0.2 : ℚ) * (1 - 0))⟩]⟩
    (by rfl)

/-- A decimal digit character renders and parses back to its value. -/
theorem digitVal_digitChar {d : ℕ} (h : d < 10) : digitVal (digitChar d) = d := by
  interval_cases d <;> rfl

/-- A decimal digit character is a digit. -/
theorem digitChar_isDigit {d : ℕ} (h : d < 10) : (digitChar d).isDigit = true := by
  interval_cases d <;> rfl

/-- Full characterisation of the decimal rendering loop: with sufficient
fuel it prepends a non-empty digit string whose value is the rendered
number. -/
theorem natCharsAux_spec :
    ∀ (fuel n : ℕ) (acc : Chars), n < fuel →
      ∃ ds, natCharsAux fuel n acc = ds ++ acc ∧ ds ≠ [] ∧
        (∀ c ∈ ds, c.isDigit = true) ∧
        ∀ a : ℕ, ds.foldl (fun x c => x * 10 + digitVal c) a =
          a * 10 ^ ds.length + n := by
  intro fuel
  induction fuel with
  | zero => intro n acc h; omega
  | succ g ih =>
    intro n acc h
    by_cases h10 : n < 10
    · refine ⟨[digitChar n], by simp [natCharsAux, h10], by simp, ?_, ?_⟩
      · intro c hc
        rw [List.mem_singleton] at hc
        subst hc
        exact digitChar_isDigit h10
      · intro a
        simp [List.foldl, digitVal_digitChar h10]
    · have hdiv : n / 10 < g := by
        have := Nat.div_lt_self (by omega : 0 < n) (by omega : 1 < 10)
        omega
      obtain ⟨ds, heq, hne, hdig, hval⟩ := ih (n / 10) (digitChar (n % 10) :: acc) hdiv
      refine ⟨ds ++ [digitChar (n % 10)], ?_, by simp, ?_, ?_⟩
      · rw [natCharsAux, if_neg h10, heq, List.append_assoc, List.singleton_append]
      · intro c hc
        rw [List.mem_append, List.mem_singleton] at hc
        rcases hc with hc | hc
        · exact hdig c hc
        · subst hc; exact digitChar_isDigit (Nat.mod_lt n (by omega))
      · intro a
        rw [List.foldl_append, hval a]
        simp [digitVal_digitChar (Nat.mod_lt n (by omega : 0 < 10)), List.length_append,
          pow_succ]
        ring_nf
        omega

/-- The decimal rendering of a natural number is non-empty. -/
theorem natChars_ne_nil (n : ℕ) : natChars n ≠ [] := by
  obtain ⟨ds, heq, hne, -, -⟩ := natCharsAux_spec (n + 1) n [] (by omega)
  rw [natChars, heq, List.append_nil]
  exact hne

/-- Every character of the decimal rendering is a digit. -/
theorem natChars_digits (n : ℕ) : ∀ c ∈ natChars n, c.isDigit = true := by
  obtain ⟨ds, heq, -, hdig, -⟩ := natCharsAux_spec (n + 1) n [] (by omega)
  rw [natChars, heq, List.append_nil]
  exact hdig

/-- Python `int` inverts the decimal rendering. -/
theorem parseDigits_natChars (n : ℕ) : parseDigits (natChars n) = some n := by
  obtain ⟨ds, heq, hne, hdig, hval⟩ := natCharsAux_spec (n + 1) n [] (by omega)
  rw [natChars] at *
  rw [heq, List.append_nil] at *
  rw [parseDigits, if_pos ⟨hne, List.all_eq_true.mpr hdig⟩, digitsVal]
  have := hval 0
  simp at this
  rw [this]

/-- A digit character is not `o`. -/
theorem digit_ne_o {c : Char} (h : c.isDigit = true) : c ≠ 'o' := by
  intro heq; subst heq; exact absurd h (by decide)

/-- A digit character is not `.`. -/
theorem digit_ne_dot {c : Char} (h : c.isDigit = true) : c ≠ '.' := by
  intro heq; subst heq; exact absurd h (by decide)

/-- `afterDigits` walks through a leading digit run. -/
theorem afterDigits_digits_append (ds : Chars)
    (hds : ∀ c ∈ ds, c.isDigit = true) (l : Chars) :
    afterDigits (ds ++ l) = afterDigits l := by
  induction ds with
  | nil => rfl
  | cons d ds ih =>
    have hd : d.isDigit = true := hds d (by simp)
    simp only [List.cons_append, afterDigits, hd, if_true]
    exact ih (fun c hc => hds c (by simp [hc]))

/-- The pattern `[0-9]+\.csv` matches a non-empty digit run followed by
`.csv`. -/
theorem digitsThenCsv_digits_csv (ds : Chars) (h1 : ds ≠ [])
    (hds : ∀ c ∈ ds, c.isDigit = true) (l : Chars) :
    digitsThenCsv (ds ++ (dotCsvL ++ l)) = true := by
  have hafter : afterDigits (dotCsvL ++ l) = true := by
    have h := dropPrefixL_append_self dotCsvL l
    show (dropPrefixL dotCsvL (dotCsvL ++ l)).isSome = true
    rw [h]; rfl
  rcases ds with _ | ⟨d, ds⟩
  · exact absurd rfl h1
  · have hd : d.isDigit = true := hds d (by simp)
    simp only [List.cons_append, digitsThenCsv, hd, Bool.true_and]
    rw [afterDigits_digits_append ds (fun c hc => hds c (by simp [hc])), hafter]

/-- The pattern `[0-9]+\.csv` does not match a digit run followed by
`_scaled.csv`. -/
theorem digitsThenCsv_scaled (ds : Chars) (hds : ∀ c ∈ ds, c.isDigit = true) :
    digitsThenCsv (ds ++ scaledSufL) = false := by
  rcases ds with _ | ⟨d, ds⟩
  · rfl
  · have hd : d.isDigit = true := hds d (by simp)
    simp only [List.cons_append, digitsThenCsv, hd, Bool.true_and]
    rw [afterDigits_digits_append ds (fun c hc => hds c (by simp [hc]))]
    rfl

/-- One-position unfolding of the regex search. -/
theorem historyMatches_cons (c : Char) (l : Chars) :
    historyMatches (c :: l) = (startsHist (c :: l) || historyMatches l) := rfl

/-- Anchored match after the literal `opt_history_`, and the search
positions inside that literal. -/
theorem historyMatches_optHist (m : Chars) :
    historyMatches (optHistL ++ m) =
      (digitsThenCsv m ||
        historyMatches ('p' :: 't' :: '_' :: 'h' :: 'i' :: 's' :: 't' :: 'o' ::
          'r' :: 'y' :: '_' :: m)) := rfl

/-- The search cannot start at a digit position. -/
theorem historyMatches_digits_append (ds : Chars)
    (hds : ∀ c ∈ ds, c.isDigit = true) (l : Chars) :
    historyMatches (ds ++ l) = historyMatches l := by
  induction ds with
  | nil => rfl
  | cons d ds ih =>
    have hd : d ≠ 'o' := digit_ne_o (hds d (by simp))
    have hstart : startsHist (d :: (ds ++ l)) = false := by
      show (match dropPrefixL optHistL (d :: (ds ++ l)) with
        | some r => digitsThenCsv r | none => false) = false
      have : dropPrefixL optHistL (d :: (ds ++ l)) = none := by
        simp [optHistL, dropPrefixL, hd]
      rw [this]
    rw [List.cons_append, historyMatches_cons, hstart, Bool.false_or]
    exact ih (fun c hc => hds c (by simp [hc]))

/-- The legacy history file name `opt_history_<n>.csv` is matched by the
finder regex. -/
theorem historyMatches_histFile (n : ℕ) :
    historyMatches (histFileName n) = true := by
  have h1 : digitsThenCsv (natChars n ++ dotCsvL) = true := by
    have := digitsThenCsv_digits_csv (natChars n) (natChars_ne_nil n)
      (natChars_digits n) []
    simpa using this
  show historyMatches ((optHistL ++ natChars n) ++ dotCsvL) = true
  rw [List.append_assoc, historyMatches_optHist, h1, Bool.true_or]

/-- No anchored match can start at the positions strictly inside the
literal `opt_history_`: each such tail begins with characters that
immediately refute the pattern. -/
theorem startsHist_p (x : Chars) : startsHist ('p' :: x) = false := rfl

/-- Tail starting at `t`. -/
theorem startsHist_t (x : Chars) : startsHist ('t' :: x) = false := rfl

/-- Tail starting at `_`. -/
theorem startsHist_us (x : Chars) : startsHist ('_' :: x) = false := rfl

/-- Tail starting at `h`. -/
theorem startsHist_h (x : Chars) : startsHist ('h' :: x) = false := rfl

/-- Tail starting at `i`. -/
theorem startsHist_i (x : Chars) : startsHist ('i' :: x) = false := rfl

/-- Tail starting at `s`. -/
theorem startsHist_s (x : Chars) : startsHist ('s' :: x) = false := rfl

/-- Tail starting at `o` followed by `r` (the second `o` of the
literal). -/
theorem startsHist_or (x : Chars) : startsHist ('o' :: 'r' :: x) = false := rfl

/-- Tail starting at `r`. -/
theorem startsHist_r (x : Chars) : startsHist ('r' :: x) = false := rfl

/-- Tail starting at `y`. -/
theorem startsHist_y (x : Chars) : startsHist ('y' :: x) = false := rfl

/-- The scaled history file name `opt_history_<n>_scaled.csv` is NOT
matched by the finder regex (`_scaled` breaks `[0-9]+\.csv` at every
candidate position). -/
theorem historyMatches_histScaled (n : ℕ) :
    historyMatches (histScaledFileName n) = false := by
  have htail : historyMatches (natChars n ++ scaledSufL) = false := by
    rw [historyMatches_digits_append (natChars n) (natChars_digits n)]
    rfl
  have h1 : digitsThenCsv (natChars n ++ scaledSufL) = false :=
    digitsThenCsv_scaled (natChars n) (natChars_digits n)
  show historyMatches ((optHistL ++ natChars n) ++ scaledSufL) = false
  rw [List.append_assoc, historyMatches_optHist, h1, Bool.false_or]
  rw [historyMatches_cons, startsHist_p, Bool.false_or]
  rw [historyMatches_cons, startsHist_t, Bool.false_or]
  rw [historyMatches_cons, startsHist_us, Bool.false_or]
  rw [historyMatches_cons, startsHist_h, Bool.false_or]
  rw [historyMatches_cons, startsHist_i, Bool.false_or]
  rw [historyMatches_cons, startsHist_s, Bool.false_or]
  rw [historyMatches_cons, startsHist_t, Bool.false_or]
  rw [historyMatches_cons, startsHist_or, Bool.false_or]
  rw [historyMatches_cons, startsHist_r, Bool.false_or]
  rw [historyMatches_cons, startsHist_y, Bool.false_or]
  rw [historyMatches_cons, startsHist_us, Bool.false_or]
  exact htail

/-- Dropping a non-empty prefix strictly shrinks the string. -/
theorem dropPrefixL_shrink {p l r : Chars} (hp : p ≠ [])
    (h : dropPrefixL p l = some r) : r.length < l.length := by
  have h1 := dropPrefixL_length p l r h
  have h2 : 0 < p.length := List.length_pos.mpr hp
  omega

/-- The split scanner never returns an empty piece list. -/
theorem splitDelimsAux_ne_nil : ∀ (fuel : ℕ) (l : Chars),
    splitDelimsAux fuel l ≠ [] := by
  intro fuel l
  cases fuel with
  | zero => simp [splitDelimsAux]
  | succ g =>
    cases l with
    | nil => simp [splitDelimsAux]
    | cons c rest =>
      simp only [splitDelimsAux]
      rcases dropPrefixL optHistL (c :: rest) with _ | r
      · rcases dropPrefixL dotCsvL (c :: rest) with _ | r
        · rcases h : splitDelimsAux g rest with _ | ⟨t, ts⟩ <;> simp [consHead, h]
        · simp
      · simp

/-- The split scanner is insensitive to the exact fuel, given enough. -/
theorem splitDelimsAux_irrel : ∀ (f1 : ℕ) (l : Chars) (f2 : ℕ),
    l.length < f1 → l.length < f2 → splitDelimsAux f1 l = splitDelimsAux f2 l := by
  intro f1
  induction f1 with
  | zero => intro l f2 h1 h2; omega
  | succ g ih =>
    intro l f2 h1 h2
    cases f2 with
    | zero => omega
    | succ g2 =>
      cases l with
      | nil => rfl
      | cons c rest =>
        simp only [splitDelimsAux]
        rcases ho : dropPrefixL optHistL (c :: rest) with _ | r
        · rcases hd : dropPrefixL dotCsvL (c :: rest) with _ | r
          · dsimp only
            rw [ih rest g2 (by simp at h1 ⊢; omega) (by simp at h2 ⊢; omega)]
          · have hr := dropPrefixL_shrink (by decide) hd
            dsimp only
            rw [ih r g2 (by simp at h1 hr ⊢; omega) (by simp at h2 hr ⊢; omega)]
        · have hr := dropPrefixL_shrink (by decide) ho
          dsimp only
          rw [ih r g2 (by simp at h1 hr ⊢; omega) (by simp at h2 hr ⊢; omega)]

/-- Scanner step at an `opt_history_` occurrence. -/
theorem splitDelimsAux_optHist (k : ℕ) (l : Chars) :
    splitDelimsAux (k + 1) (optHistL ++ l) = [] :: splitDelimsAux k l := rfl

/-- Scanner step at a `.csv` occurrence. -/
theorem splitDelimsAux_dotCsv (k : ℕ) (l : Chars) :
    splitDelimsAux (k + 1) (dotCsvL ++ l) = [] :: splitDelimsAux k l := rfl

/-- Scanner step at a position matching neither delimiter. -/
theorem splitDelimsAux_skip (k : ℕ) {c : Char} {l : Chars}
    (h1 : dropPrefixL optHistL (c :: l) = none)
    (h2 : dropPrefixL dotCsvL (c :: l) = none) :
    splitDelimsAux (k + 1) (c :: l) = consHead c (splitDelimsAux k l) := by
  simp only [splitDelimsAux, h1, h2]

/-- `splitDelims` at an `opt_history_` occurrence. -/
theorem splitDelims_optHist (l : Chars) :
    splitDelims (optHistL ++ l) = [] :: splitDelims l := by
  show splitDelimsAux ((optHistL ++ l).length + 1) (optHistL ++ l) = _
  rw [splitDelimsAux_optHist]
  refine congrArg ([] :: ·) (splitDelimsAux_irrel _ l _ ?_ ?_)
  · simp [optHistL, List.length_append]
    omega
  · simp

/-- `splitDelims` at a `.csv` occurrence. -/
theorem splitDelims_dotCsv (l : Chars) :
    splitDelims (dotCsvL ++ l) = [] :: splitDelims l := by
  show splitDelimsAux ((dotCsvL ++ l).length + 1) (dotCsvL ++ l) = _
  rw [splitDelimsAux_dotCsv]
  refine congrArg ([] :: ·) (splitDelimsAux_irrel _ l _ ?_ ?_)
  · simp [dotCsvL, List.length_append]
    omega
  · simp

/-- `splitDelims` at a position matching neither delimiter. -/
theorem splitDelims_skip {c : Char} {l : Chars}
    (h1 : dropPrefixL optHistL (c :: l) = none)
    (h2 : dropPrefixL dotCsvL (c :: l) = none) :
    splitDelims (c :: l) = consHead c (splitDelims l) := by
  show splitDelimsAux ((c :: l).length + 1) (c :: l) = _
  rw [splitDelimsAux_skip _ h1 h2]
  refine congrArg (consHead c) (splitDelimsAux_irrel _ l _ ?_ ?_) <;> simp

/-- Mismatch of `opt_history_` on the first character. -/
theorem dropPrefixL_optHist_none {c : Char} (h : c ≠ 'o') (l : Chars) :
    dropPrefixL optHistL (c :: l) = none := by
  simp [optHistL, dropPrefixL, h]

/-- Mismatch of `.csv` on the first character. -/
theorem dropPrefixL_dotCsv_none {c : Char} (h : c ≠ '.') (l : Chars) :
    dropPrefixL dotCsvL (c :: l) = none := by
  simp [dotCsvL, dropPrefixL, h]

/-- Prepending distributes over `consHead`. -/
theorem consHead_prependToHead (c : Char) (a : Chars) (ps : List Chars) :
    consHead c (prependToHead a ps) = prependToHead (c :: a) ps := by
  cases ps <;> rfl

/-- The scanner copies a delimiter-free character run into the current
piece. -/
theorem splitDelims_clean_append (a : Chars)
    (ha : ∀ c ∈ a, c ≠ 'o' ∧ c ≠ '.') (l : Chars) :
    splitDelims (a ++ l) = prependToHead a (splitDelims l) := by
  induction a with
  | nil =>
    rcases h : splitDelims l with _ | ⟨t, ts⟩
    · exact absurd h (splitDelimsAux_ne_nil _ l)
    · simp [prependToHead, h]
  | cons c a' ih =>
    have hc := ha c (by simp)
    rw [List.cons_append,
      splitDelims_skip (dropPrefixL_optHist_none hc.1 _)
        (dropPrefixL_dotCsv_none hc.2 _),
      ih (fun x hx => ha x (by simp [hx])), consHead_prependToHead]

/-- The scanner copies the whole `access_info_` prefix into the current
piece: its first ten characters match neither delimiter head, and at its
`o` the literal `opt_history_` mismatches on the following `_`. -/
theorem splitDelims_accessPref (l : Chars) :
    splitDelims (accessInfoPref ++ l) =
      prependToHead accessInfoPref (splitDelims l) := by
  have h10 : splitDelims ((['a', 'c', 'c', 'e', 's', 's', '_', 'i', 'n', 'f'] :
      Chars) ++ ('o' :: '_' :: l)) =
      prependToHead ['a', 'c', 'c', 'e', 's', 's', '_', 'i', 'n', 'f']
        (splitDelims ('o' :: '_' :: l)) :=
    splitDelims_clean_append _ (by decide) _
  have ho : splitDelims ('o' :: '_' :: l) = consHead 'o' (splitDelims ('_' :: l)) :=
    splitDelims_skip rfl rfl
  have hu : splitDelims ('_' :: l) = consHead '_' (splitDelims l) :=
    splitDelims_skip (dropPrefixL_optHist_none (by decide) _)
      (dropPrefixL_dotCsv_none (by decide) _)
  have hall : accessInfoPref ++ l =
      (['a', 'c', 'c', 'e', 's', 's', '_', 'i', 'n', 'f'] : Chars) ++
        ('o' :: '_' :: l) := rfl
  rw [hall, h10, ho, hu]
  rcases h : splitDelims l with _ | ⟨t, ts⟩ <;> rfl

/-- Digit runs are delimiter-free for the scanner. -/
theorem digits_clean (ds : Chars) (hds : ∀ c ∈ ds, c.isDigit = true) :
    ∀ c ∈ ds, c ≠ 'o' ∧ c ≠ '.' :=
  fun c hc => ⟨digit_ne_o (hds c hc), digit_ne_dot (hds c hc)⟩

/-- Complete evaluation of `re.split(r"opt_history_|\.csv", ·)` on a
legacy history path `access_info_<seed>/opt_history_<n>.csv`: the pieces
are the directory part, the population-size digits, and an empty
remainder. -/
theorem splitDelims_histPath (seed n : ℕ) :
    splitDelims (joinPath (accessInfoPref ++ natChars seed) (histFileName n)) =
      [accessInfoPref ++ (natChars seed ++ ['/']), natChars n, []] := by
  have hpath : joinPath (accessInfoPref ++ natChars seed) (histFileName n) =
      accessInfoPref ++ (natChars seed ++ ('/' ::
        (optHistL ++ (natChars n ++ dotCsvL)))) := by
    simp [joinPath, histFileName, List.append_assoc]
  rw [hpath, splitDelims_accessPref,
    splitDelims_clean_append (natChars seed)
      (digits_clean _ (natChars_digits seed)),
    splitDelims_skip (dropPrefixL_optHist_none (by decide) _)
      (dropPrefixL_dotCsv_none (by decide) _),
    splitDelims_optHist,
    splitDelims_clean_append (natChars n) (digits_clean _ (natChars_digits n)),
    show splitDelims dotCsvL = [[], []] from rfl]
  simp [prependToHead, consHead]

/-- The population size parsed back from a legacy history path is the
population size encoded in the file name. -/
theorem parseNumSolutions_histPath (seed n : ℕ) :
    parseNumSolutions
      (joinPath (accessInfoPref ++ natChars seed) (histFileName n)) = some n := by
  rw [parseNumSolutions, splitDelims_histPath]
  simp [parseDigits_natChars]

/-- `str.split(".csv")[0]` keeps everything before a trailing `.csv` when
the prefix contains no dot. -/
theorem headBeforeCsv_no_dot (a : Chars) (ha : ∀ c ∈ a, c ≠ '.') (b : Chars) :
    headBeforeCsv (a ++ (dotCsvL ++ b)) = a := by
  induction a with
  | nil =>
    show headBeforeCsv (dotCsvL ++ b) = []
    have h := dropPrefixL_append_self dotCsvL b
    show (match dropPrefixL dotCsvL (dotCsvL ++ b) with
      | some _ => [] | none => '.' :: headBeforeCsv ('c' :: 's' :: 'v' :: b)) = []
    rw [h]
  | cons c a' ih =>
    have hc : c ≠ '.' := ha c (by simp)
    show (match dropPrefixL dotCsvL (c :: (a' ++ (dotCsvL ++ b))) with
      | some _ => [] | none => c :: headBeforeCsv (a' ++ (dotCsvL ++ b))) = c :: a'
    rw [dropPrefixL_dotCsv_none hc, ih (fun x hx => ha x (by simp [hx]))]

/-- Characters of a legacy history path before its trailing `.csv`. -/
theorem histPathNoDot (seed n : ℕ) :
    ∀ c ∈ accessInfoPref ++ natChars seed ++
      '/' :: (optHistL ++ natChars n), c ≠ '.' := by
  intro c hc
  simp only [List.mem_append, List.mem_cons] at hc
  rcases hc with (hc | hc) | hc | hc
  · revert c; decide
  · exact digit_ne_dot (natChars_digits seed c hc)
  · subst hc; decide
  · rcases hc with hc | hc
    · revert c; decide
    · exact digit_ne_dot (natChars_digits n c hc)

/-- The scaled-history path constructed by `AccessData.read` from a legacy
history path is exactly the scaled file's path. -/
theorem scaledPath_eq (seed n : ℕ) :
    headBeforeCsv (joinPath (accessInfoPref ++ natChars seed)
        (histFileName n)) ++ scaledSufL =
      joinPath (accessInfoPref ++ natChars seed) (histScaledFileName n) := by
  have hpath : joinPath (accessInfoPref ++ natChars seed) (histFileName n) =
      (accessInfoPref ++ natChars seed ++ '/' :: (optHistL ++ natChars n)) ++
        (dotCsvL ++ []) := by
    simp [joinPath, histFileName, List.append_assoc]
  rw [hpath, headBeforeCsv_no_dot _ (histPathNoDot seed n)]
  simp [joinPath, histScaledFileName, List.append_assoc]

/-- Association-list lookup at the key just inserted. -/
theorem lookup_cons_self {β : Type} (a : Chars) (b : β) (l : List (Chars × β)) :
    List.lookup a ((a, b) :: l) = some b := by
  simp [List.lookup]

/-- Association-list lookup skips a different key. -/
theorem lookup_cons_ne {β : Type} {a k : Chars} (h : ¬a = k) (b : β)
    (l : List (Chars × β)) : List.lookup a ((k, b) :: l) = List.lookup a l := by
  have hbeq : (a == k) = false := beq_eq_false_iff_ne.mpr h
  simp [List.lookup, hbeq]

/-- A run directory name starts with the `access_info_` pattern. -/
theorem startsWithB_accessPref (x : Chars) :
    startsWithB (accessInfoPref ++ x) accessInfoPref = true := by
  rw [startsWithB, dropPrefixL_append_self]
  rfl

/-- `np.loadtxt` on a rectangular grid with at least two rows and at least
two columns returns it as a 2-D array. -/
theorem loadtxt_twod (grid : List (List ℚ)) (W : ℕ) (hW : 2 ≤ W)
    (hlen : 2 ≤ grid.length) (hw : ∀ r ∈ grid, r.length = W) :
    loadtxt grid = .ok (.twod grid) := by
  rcases grid with _ | ⟨r0, rest⟩
  · simp at hlen
  rcases rest with _ | ⟨r1, rest⟩
  · simp at hlen
  have h0 : r0.length = W := hw r0 (by simp)
  have hall : ((r0 :: r1 :: rest).all
      (fun r => r.length = ((r0 :: r1 :: rest).headD []).length)) = true := by
    rw [List.all_eq_true]
    intro r hr
    simp [hw r hr, h0]
  unfold loadtxt
  rw [if_pos hall]
  split
  next heq => simp at heq
  next x heq => simp at heq
  next r hx heq => simp at heq
  next =>
    rw [if_neg (by simp [h0]; omega : ¬((r0 :: r1 :: rest).headD []).length = 1)]

/-- `pd.DataFrame` on a 2-D array whose width matches the column names. -/
theorem mkDF_twod (rows : List (List ℚ)) (cols : List Chars)
    (hw : ∀ r ∈ rows, r.length = cols.length) :
    mkDF (.twod rows) cols = .ok ⟨cols, rows⟩ := by
  rw [mkDF, if_pos (List.all_eq_true.mpr (fun r hr => by simp [hw r hr]))]

/-- A successfully built DataFrame has as many rows as `len` reports for
the loaded array. -/
theorem mkDF_npLen (a : NpArray) (cols : List Chars) (df : DataFrame)
    (h : mkDF a cols = .ok df) : npLen a = .ok df.rows.length := by
  rcases a with rows | l | x
  · rw [mkDF] at h
    split_ifs at h
    injection h with h
    subst h
    rfl
  · rw [mkDF] at h
    split_ifs at h
    injection h with h
    subst h
    simp [npLen]
  · exact absurd h (by simp [mkDF])

/-- Number of derived result columns: one per parameter, one `_std` per
parameter, plus `overall_std` and `error`. -/
theorem resultsColumns_length (t : ParametersTable) :
    (resultsColumns t).length = 2 * t.index.length + 2 := by
  simp [resultsColumns]
  omega

/-- The finder regex rejects the metadata pickle file name. -/
theorem historyMatches_pickle : historyMatches accessPickleL = false := rfl

/-- Resolving the written run directory is the identity: its name carries
the recognizable `access_info_` naming prefix. -/
theorem find_access_writeRun (cfg : RunConfig) :
    find_access_path (writeRun cfg) (runDirName cfg) = .ok (runDirName cfg) := by
  unfold find_access_path
  rw [if_pos (show startsWithB (runDirName cfg) accessInfoPref = true by
    rw [runDirName]; exact startsWithB_accessPref _)]

/-- Of the three files written for a completed run, exactly the raw
history file matches the finder regex. -/
theorem filter_writeRun_listing (n : ℕ) :
    ([accessPickleL, histScaledFileName n, histFileName n].filter
      historyMatches) = [histFileName n] := by
  simp [List.filter, historyMatches_histScaled, historyMatches_histFile,
    historyMatches_pickle]

/-- C3 (round trip, writer modelled from the spec): reading back a
completed run directory written by the persistence layer reconstructs the
parameter table (hence its bounds), the population size, the target
sigma and the random seed of the original configuration, and a history
DataFrame whose rows are exactly the persisted
`num_epochs × num_solutions` candidate rows. -/
theorem C3_roundtrip (cfg : RunConfig)
    (hN : 2 ≤ cfg.num_solutions) (hE : 1 ≤ cfg.num_epochs)
    (hlen : cfg.history.length = cfg.num_epochs * cfg.num_solutions)
    (hlen2 : cfg.history_scaled.length = cfg.num_epochs * cfg.num_solutions)
    (hw : ∀ r ∈ cfg.history, r.length = 2 * cfg.params.index.length + 2)
    (hw2 : ∀ r ∈ cfg.history_scaled, r.length = 2 * cfg.params.index.length + 2) :
    AccessData.read (writeRun cfg) (runDirName cfg) =
      .ok ⟨cfg.params, cfg.num_solutions, cfg.target_sigma, cfg.seed,
        ⟨resultsColumns cfg.params, cfg.history⟩,
        ⟨resultsColumns cfg.params, cfg.history_scaled⟩, cfg.num_epochs⟩ ∧
    cfg.history.length = cfg.num_epochs * cfg.num_solutions := by
  refine ⟨?_, hlen⟩
  have hparse : parseNumSolutions
      (joinPath (runDirName cfg) (histFileName cfg.num_solutions)) =
      some cfg.num_solutions := by
    rw [runDirName]; exact parseNumSolutions_histPath cfg.seed cfg.num_solutions
  have hdirs : (writeRun cfg).dirs.lookup (runDirName cfg) =
      some [accessPickleL, histScaledFileName cfg.num_solutions,
        histFileName cfg.num_solutions] := lookup_cons_self _ _ _
  unfold AccessData.read
  rw [find_access_writeRun]
  simp only [hdirs, filter_writeRun_listing, List.getLast?_singleton,
    List.any_cons, List.any_nil, hparse, Option.isNone_some, Bool.or_false,
    Bool.false_eq_true, if_false]
  -- now the readWithFile stage
  unfold readWithFile
  dsimp only
  rw [hparse]
  simp only [show (writeRun cfg).pickles.lookup
      (joinPath (runDirName cfg) accessPickleL) =
      some ⟨cfg.params, cfg.target_sigma, cfg.seed⟩ from lookup_cons_self _ _ _]
  simp only [show (writeRun cfg).csvs.lookup
      (joinPath (runDirName cfg) (histFileName cfg.num_solutions)) =
      some cfg.history from lookup_cons_self _ _ _]
  have hscaledkey : headBeforeCsv (joinPath (runDirName cfg)
        (histFileName cfg.num_solutions)) ++ scaledSufL =
      joinPath (runDirName cfg) (histScaledFileName cfg.num_solutions) := by
    rw [runDirName]; exact scaledPath_eq cfg.seed cfg.num_solutions
  have hkeyne : ¬joinPath (runDirName cfg)
        (histScaledFileName cfg.num_solutions) =
      joinPath (runDirName cfg) (histFileName cfg.num_solutions) := by
    intro h
    have := congrArg List.length h
    simp [joinPath, histScaledFileName, histFileName, scaledSufL, dotCsvL,
      optHistL, List.length_append] at this
  rw [hscaledkey]
  simp only [show (writeRun cfg).csvs.lookup
      (joinPath (runDirName cfg) (histScaledFileName cfg.num_solutions)) =
      some cfg.history_scaled from by
    show List.lookup _ (_ :: _) = _
    rw [lookup_cons_ne hkeyne, lookup_cons_self]]
  have h2rows : 2 ≤ cfg.num_epochs * cfg.num_solutions :=
    le_trans hN (Nat.le_mul_of_pos_left _ (by omega))
  rw [loadtxt_twod cfg.history _ (by omega) (by rw [hlen]; exact h2rows) hw,
    loadtxt_twod cfg.history_scaled _ (by omega) (by rw [hlen2]; exact h2rows) hw2]
  simp only []
  rw [mkDF_twod cfg.history _ (fun r hr => by
      rw [resultsColumns_length]; exact hw r hr),
    mkDF_twod cfg.history_scaled _ (fun r hr => by
      rw [resultsColumns_length]; exact hw2 r hr)]
  simp only [npLen]
  rw [if_neg (by omega : ¬cfg.num_solutions = 0)]
  have : cfg.history.length / cfg.num_solutions = cfg.num_epochs := by
    rw [hlen, Nat.mul_div_cancel _ (by omega : 0 < cfg.num_solutions)]
  rw [this]

/-- Witness for C3 at the concrete fixture run (seed 42, one parameter,
population size 2, one epoch). -/
theorem C3_witness :
    (AccessData.read (writeRun cfgFixture) (runDirName cfgFixture) =
      .ok ⟨cfgFixture.params, cfgFixture.num_solutions, cfgFixture.target_sigma,
        cfgFixture.seed,
        ⟨resultsColumns cfgFixture.params, cfgFixture.history⟩,
        ⟨resultsColumns cfgFixture.params, cfgFixture.history_scaled⟩,
        cfgFixture.num_epochs⟩) ∧
    cfgFixture.history.length =
      cfgFixture.num_epochs * cfgFixture.num_solutions :=
  C3_roundtrip cfgFixture (by decide) (by decide) (by decide) (by decide)
    (by decide) (by decide)

/-- The last element of a list is an element. -/
theorem getLast?_mem' {α : Type} : ∀ (l : List α) (a : α),
    l.getLast? = some a → a ∈ l := by
  intro l
  induction l with
  | nil => intro a h; simp at h
  | cons x xs ih =>
    intro a h
    rcases xs with _ | ⟨y, ys⟩
    · simp at h; simp [h]
    · rw [List.getLast?_cons_cons] at h
      exact List.mem_cons_of_mem x (ih a h)

/-- C4: whenever `AccessData.read` succeeds, the number of epochs of the
returned view is the total number of history rows divided (integer
division) by its population size, and that population size is parsed out
of the name of the last history file matched in the resolved run
directory — no separately stored epoch count is consulted (none even
exists in the filesystem model). -/
theorem C4_num_epochs_derived (fs : FileSys) (p : Chars) (d : AccessData)
    (h : AccessData.read fs p = .ok d) :
    d.num_epochs = d.results.rows.length / d.num_solutions ∧
    ∃ ap listing f, find_access_path fs p = .ok ap ∧
      fs.dirs.lookup ap = some listing ∧
      (listing.filter historyMatches).getLast? = some f ∧
      parseNumSolutions (joinPath ap f) = some d.num_solutions := by
  unfold AccessData.read at h
  rcases hfind : find_access_path fs p with e | ap <;> simp only [hfind] at h
  · exact Except.noConfusion h
  rcases hdir : fs.dirs.lookup ap with _ | listing <;> simp only [hdir] at h
  · exact Except.noConfusion h
  by_cases hany : ((listing.filter historyMatches).any
      (fun g => (parseNumSolutions (joinPath ap g)).isNone)) = true
  · rw [if_pos hany] at h; exact Except.noConfusion h
  rw [if_neg hany] at h
  rcases hpk : fs.pickles.lookup (joinPath ap accessPickleL) with _ | info <;>
    simp only [hpk] at h
  · exact Except.noConfusion h
  rcases hlast : (listing.filter historyMatches).getLast? with _ | f <;>
    simp only [hlast] at h
  · exact Except.noConfusion h
  have hfmem : f ∈ listing.filter historyMatches := getLast?_mem' _ f hlast
  rcases hp : parseNumSolutions (joinPath ap f) with _ | N
  · exact absurd (List.any_eq_true.mpr ⟨f, hfmem, by simp [hp]⟩) hany
  unfold readWithFile at h
  dsimp only at h
  rw [hp] at h
  rcases hcsv : fs.csvs.lookup (joinPath ap f) with _ | hGrid <;>
    simp only [hcsv] at h
  · exact Except.noConfusion h
  rcases hcsv2 : fs.csvs.lookup (headBeforeCsv (joinPath ap f) ++ scaledSufL)
      with _ | sGrid <;> simp only [hcsv2] at h
  · exact Except.noConfusion h
  rcases hld : loadtxt hGrid with e | history <;> simp only [hld] at h
  · exact Except.noConfusion h
  rcases hld2 : loadtxt sGrid with e | history_scaled <;> simp only [hld2] at h
  · exact Except.noConfusion h
  rcases hmk : mkDF history (resultsColumns info.parameters) with e | results <;>
    simp only [hmk] at h
  · exact Except.noConfusion h
  rcases hmk2 : mkDF history_scaled (resultsColumns info.parameters)
      with e | results_scaled <;> simp only [hmk2] at h
  · exact Except.noConfusion h
  rcases hnl : npLen history with e | n <;> simp only [hnl] at h
  · exact Except.noConfusion h
  by_cases hzero : N = 0
  · rw [if_pos hzero] at h; exact Except.noConfusion h
  rw [if_neg hzero] at h
  injection h with h
  subst h
  have hlenr := mkDF_npLen history _ results hmk
  rw [hnl] at hlenr
  injection hlenr with hlenr
  exact ⟨by simp [hlenr], ap, listing, f, rfl, hdir, hlast, by simp [hp]⟩

/-- Witness for C4 at the concrete legacy fixture directory. -/
theorem C4_witness :
    testAccessData.num_epochs =
      testAccessData.results.rows.length / testAccessData.num_solutions ∧
    ∃ ap listing f, find_access_path testFS legacyDirPath = .ok ap ∧
      testFS.dirs.lookup ap = some listing ∧
      (listing.filter historyMatches).getLast? = some f ∧
      parseNumSolutions (joinPath ap f) = some testAccessData.num_solutions :=
  C4_num_epochs_derived testFS legacyDirPath testAccessData (by rfl)

/-- C5 (code-bug evidence): at a run directory that the static entry point
`AccessData.read` reads back successfully, the direct call
`AccessData(path)` raises `TypeError` instead of returning the same
reconstructed view: the `@attr.s(auto_attribs = True, frozen = True)`
decorator generates an `__init__` that requires all seven field values,
so construct-by-path cannot succeed for any path — contradicting both the
spec's read API contract and the repository's own test
`test_access_data`, which calls
`coexist.AccessData("access_data/access_seed123")`. -/
theorem C5_construct_by_path_bug :
    AccessData.read testFS legacyDirPath = .ok testAccessData ∧
    accessDataCallByPath legacyDirPath = .error .typeError := ⟨rfl, rfl⟩

/-- C6 (code-bug evidence): `AccessData.read` hard-codes the legacy layout
(`opt_history_<N>.csv` + `access_info.pickle`): it succeeds on the
legacy-format fixture directory both directly and via parent-directory
auto-discovery, but on the current-format fixture directory
`access_data/access_seed123` (whose contents are modelled from the spec
and the test's naming, with no legacy-named files) it raises — the `for`
loop over `os.listdir` matches nothing, and the very next statement,
`open(os.path.join(access_path, "access_info.pickle"))`, raises
`FileNotFoundError` because the current format keeps no such pickle (had
the pickle existed, the subsequent `np.loadtxt(history_path)` would have
raised `UnboundLocalError` instead) — contradicting the spec's
requirement and the repository's own test `test_access_data`, which
reads both formats successfully. -/
theorem C6_current_format_bug :
    AccessData.read testFS modernDirPath = .error .fileNotFound ∧
    AccessData.read testFS legacyDirPath = .ok testAccessData ∧
    AccessData.read testFS parentPath = .ok testAccessData := ⟨rfl, rfl, rfl⟩
